import Mathlib

/-!
Verification development for the fixture-analysis plugin
(`pytest_fixture_tools/plugin.py`): a shallow embedding of its resolution
algorithm, duplicate-visibility analysis and dependency-graph construction,
together with theorems about the embedded definitions.

Conventions of the embedding:
* Python strings are Lean `String`s; `os.path.dirname` / `os.path.join` are
  modelled faithfully for POSIX paths over `String.data`.
* Python's `sorted(xs, key=k)` (Timsort, specified stable and ascending) is
  modelled by `pySortByKey`, a stable insertion sort by key.
* Python dicts (unique keys, insertion-ordered) are association lists with
  `alistGet?` / `alistSet`.
* External collaborators (pytest's collector, `inspect.getfile`,
  `getlocation`, `bestrelpath`, the terminal writer, the filesystem and the
  graphviz renderer) are modelled as explicit fields, function parameters or
  event lists; they are inputs of the core, exactly as the code treats them.
-/

/-- Generic flat-map on lists (kept local so evaluation is structural). -/
def listFlatMap {α β : Type} (f : α → List β) : List α → List β
  | [] => []
  | x :: xs => f x ++ listFlatMap f xs

def listIndexFrom (x : String) : List String → Nat → Option Nat
  | [], _ => none
  | y :: ys, n => if y = x then some n else listIndexFrom x ys (n + 1)

/-- Python `list.index(x)` (`search_order.index(...)` in the code). -/
def listIndex (l : List String) (x : String) : Option Nat :=
  listIndexFrom x l 0

def dirnameChars (l : List Char) : List Char :=
  if (l.reverse.dropWhile (fun c => c != '/')).all (fun c => c == '/') then
    (l.reverse.dropWhile (fun c => c != '/')).reverse
  else
    ((l.reverse.dropWhile (fun c => c != '/')).dropWhile (fun c => c == '/')).reverse

/-- `os.path.dirname` (POSIX) on strings. -/
def dirname (p : String) : String :=
  String.mk (dirnameChars p.data)

/-- `os.path.join a b` (POSIX) for the two-argument form used by the code. -/
def pathJoin (a b : String) : String :=
  if ['/'].isPrefixOf b.data then b
  else if a = "" ∨ ['/'].isSuffixOf a.data then a ++ b
  else a ++ "/" ++ b

def searchOrderFuel : Nat → String → List String
  | 0, _ => []
  | fuel + 1, p =>
    let func_dir := dirname p
    if func_dir = p then []
    else pathJoin func_dir "conftest.py" :: searchOrderFuel fuel func_dir

/-- `_get_fixture_search_order(func_path)`: the `conftest.py` files of the
strict ancestor directories of `func_path`, nearest first. -/

def _get_fixture_search_order (func_path : String) : List String :=
  searchOrderFuel func_path.length func_path

/- ### Python `sorted(xs, key=k)`: a stable ascending insertion sort -/

def pyInsertByKey {α κ : Type} [LinearOrder κ] (key : α → κ) (x : α) : List α → List α
  | [] => [x]
  | y :: ys => if key x ≤ key y then x :: y :: ys else y :: pyInsertByKey key x ys

/-- Model of Python's built-in `sorted(xs, key=key)`: ascending by key and
stable, realised as insertion sort (any stable sort is a faithful model,
CPython's Timsort included). -/

def pySortByKey {α κ : Type} [LinearOrder κ] (key : α → κ) : List α → List α
  | [] => []
  | x :: xs => pyInsertByKey key x (pySortByKey key xs)

/- ### Python dicts as insertion-ordered association lists -/

def alistGet? {β : Type} (k : String) : List (String × β) → Option β
  | [] => none
  | kv :: rest => if kv.1 = k then some kv.2 else alistGet? k rest

def alistSet {β : Type} (k : String) (v : β) : List (String × β) → List (String × β)
  | [] => [(k, v)]
  | kv :: rest => if kv.1 = k then (k, v) :: rest else kv :: alistSet k v rest

structure FixtureDef where
  funcPath : String
  baseid : String
  module : String
  locStr : String
  argnames : List String
deriving DecidableEq

/-- One collected test item: the code only uses its `nodeid`. -/
structure Item where
  nodeid : String
deriving DecidableEq

/-- `name2fixturedefs` / `fm._arg2fixturedefs`: a Python dict from fixture
name to the ordered list of its definitions. -/

abbrev Registry := List (String × List FixtureDef)

/-- `sys.maxsize` on a 64-bit CPython. -/
def sysMaxsize : Nat := 9223372036854775807

/- ### Definition selector: `_find_fixture_def` (plugin.py lines 167-190) -/

/-- The `search_order` value used by `_find_fixture_def` after the optional
`search_order.insert(0, func_path)` (lines 168-172): the consumer's own file
is prepended exactly when the requesting name differs from the wanted
name. -/

def findFixtureSearchOrder (source_fixture_name func_path fixture_name : String) :
    List String :=
  if source_fixture_name ≠ fixture_name then
    func_path :: _get_fixture_search_order (dirname func_path)
  else
    _get_fixture_search_order (dirname func_path)

/-- The `sort_key` closure (lines 174-178): index of the definition's file in
`search_order`, `sys.maxsize` when absent (`ValueError` caught). -/

def sort_key (search_order : List String) (fixture_def : FixtureDef) : Nat :=
  match listIndex search_order fixture_def.funcPath with
  | some i => i
  | none => sysMaxsize

/-- `_find_fixture_def` (lines 167-190): look the wanted name up in the
registry (`KeyError` → `None`), stable-sort the candidates by `sort_key` and
return the first (`IndexError` on an empty list → `None`, which `head?`
models). -/

def _find_fixture_def (source_fixture_name func_path fixture_name : String)
    (name2fixturedefs : Registry) : Option FixtureDef :=
  match alistGet? fixture_name name2fixturedefs with
  | none => none
  | some target_fixture_defs =>
    (pySortByKey
      (sort_key (findFixtureSearchOrder source_fixture_name func_path fixture_name))
      target_fixture_defs).head?

structure Fixture where
  baseidLen : Nat
  module : String
  bestrel : String
  fixturedef : FixtureDef
deriving DecidableEq

/-- Build the tuple; `bestrelF` models `curdir.bestrelpath` (an external
`py.path` function) applied to `getlocation`'s result `locStr`. -/

def mkFixture (bestrelF : String → String) (fd : FixtureDef) : Fixture :=
  ⟨fd.baseid.length, fd.module, bestrelF fd.locStr, fd⟩

/-- The module-level global `verbose = 1` (line 17). -/
def verbose : Int := 1

/-- `tw.sep("-", title)`: encoded as one output line carrying the title. -/
def twSep (title : String) : String := "---------- " ++ title

/-- The `for baseid, module, bestrel, fixturedef in fixtures:` loop body of
`print_duplicates` (lines 69-81), returning the lines written to the
terminal; `tw.line()` is the empty line, `tw.line(funcargspec)` prints the
tuple's `bestrel`.  The reassignment of `previous_argname` inside the loop
is local to the Python function, hence threaded here as a parameter. -/

def printDupLoop (argname : String) : List Fixture → Option String → List String
  | [], _ => []
  | fx :: rest, prev =>
    if prev ≠ some argname then
      "" :: twSep argname ::
        ((if verbose ≤ 0 ∧ argname.data.head? = some '_' then [] else [fx.bestrel]) ++
          printDupLoop argname rest (some argname))
    else
      (if verbose ≤ 0 ∧ argname.data.head? = some '_' then [] else [fx.bestrel]) ++
        printDupLoop argname rest prev

/-- `print_duplicates` (lines 64-81): nothing is printed unless the group
has more than one member; otherwise the members are sorted by
`key=lambda key: key[2]`, i.e. by the `bestrel` location string. -/

def print_duplicates (argname : String) (fixtures : List Fixture)
    (previous_argname : Option String) : List String :=
  if 1 < fixtures.length then
    printDupLoop argname (pySortByKey (fun fx => fx.bestrel.data) fixtures) previous_argname
  else []

/-- The `arg2fixturedefs` selection at lines 93-95: the single requested
name when it is non-empty (truthy) and present in the registry, else all
registered names (iterating the dict yields its keys). -/

def scanNames (fixture_name : String) (reg : Registry) : List String :=
  if fixture_name ≠ "" ∧ (alistGet? fixture_name reg).isSome then [fixture_name]
  else reg.map (fun kv => kv.1)

/-- `available[argname]` on the `defaultdict(list)` (missing key → `[]`). -/
def availAt (avail : List (String × List Fixture)) (name : String) : List Fixture :=
  (alistGet? name avail).getD []

/-- Lines 112-113: append the tuple unless a previously collected tuple for
the name carries the same `bestrel` location string. -/

def addFixture (avail : List (String × List Fixture)) (argname : String)
    (fx : Fixture) : List (String × List Fixture) :=
  if fx.bestrel ∈ (availAt avail argname).map (fun f => f.bestrel) then avail
  else alistSet argname (availAt avail argname ++ [fx]) avail

/-- The `for fixturedef in fixturedefs:` loop (lines 103-113). -/
def scanArgFold (bestrelF : String → String) (argname : String)
    (avail : List (String × List Fixture)) :
    List FixtureDef → List (String × List Fixture)
  | [] => avail
  | fd :: rest =>
    scanArgFold bestrelF argname (addFixture avail argname (mkFixture bestrelF fd)) rest

/-- The `for argname in arg2fixturedefs:` loop (lines 97-113).  `gfd` models
`fm.getfixturedefs(argname, item.nodeid)` (the host collector's visibility
rule); `None` trips the `assert` at line 99; the `continue` for an empty
list is a no-op, which `scanArgFold` on `[]` already is. -/

def scanNamesLoop (gfd : String → String → Option (List FixtureDef))
    (bestrelF : String → String) (nodeid : String)
    (avail : List (String × List Fixture)) :
    List String → Except String (List (String × List Fixture))
  | [] => .ok avail
  | argname :: rest =>
    match gfd argname nodeid with
    | none => .error "AssertionError: fixturedefs is not None"
    | some fds => scanNamesLoop gfd bestrelF nodeid (scanArgFold bestrelF argname avail fds) rest

/-- The `for item in session.items:` loop (lines 96-113). -/
def scanItemsLoop (names : List String) (gfd : String → String → Option (List FixtureDef))
    (bestrelF : String → String) (avail : List (String × List Fixture)) :
    List Item → Except String (List (String × List Fixture))
  | [] => .ok avail
  | it :: rest =>
    match scanNamesLoop gfd bestrelF it.nodeid avail names with
    | .error e => .error e
    | .ok availNext => scanItemsLoop names gfd bestrelF availNext rest

/-- The whole `available` accumulation of `_show_fixture_duplicates_main`. -/
def scanFixtures (names : List String) (items : List Item)
    (gfd : String → String → Option (List FixtureDef)) (bestrelF : String → String) :
    Except String (List (String × List Fixture)) :=
  scanItemsLoop names gfd bestrelF [] items

/-- The printing loop of the no-filter branch (lines 120-123). -/
def printAllLoop : List (String × List Fixture) → Option String → List String
  | [], _ => []
  | nf :: rest, prev =>
    print_duplicates nf.1 nf.2 prev ++ printAllLoop rest (some nf.1)

/-- `_show_fixture_duplicates_main` (lines 84-123) as the list of terminal
lines it produces (`.error` models the `assert` failing). -/

def _show_fixture_duplicates_main (fixture_name : String) (reg : Registry)
    (items : List Item) (gfd : String → String → Option (List FixtureDef))
    (bestrelF : String → String) : Except String (List String) :=
  match scanFixtures (scanNames fixture_name reg) items gfd bestrelF with
  | .error e => .error e
  | .ok available =>
    if fixture_name ≠ "" then
      .ok (print_duplicates fixture_name (availAt available fixture_name) none)
    else
      .ok (printAllLoop (pySortByKey (fun kv => kv.1.data) available) none)

/- ### Spec-side definitions used to state the claims -/

/-- Scope depth of a declaring location in the sense of the specification:
the length of its own ancestor chain. -/

def locationDepth (loc : String) : Nat := (_get_fixture_search_order loc).length

/-- Spec-side characterization of the dedupe at lines 112-113: keep a
definition only when its declaring-location string has not been seen, first
occurrence wins. -/

def dedupeFirstByLocation (seen : List String) : List Fixture → List Fixture
  | [] => []
  | fx :: rest =>
    if fx.bestrel ∈ seen then dedupeFirstByLocation seen rest
    else fx :: dedupeFirstByLocation (seen ++ [fx.bestrel]) rest

/-- The claim's version of `print_duplicates`: members ordered ascending by
(scope depth of the declaring location, then the location's string form).
Written only to be compared against the implementation's ordering. -/

def print_duplicates_specC3 (argname : String) (fixtures : List Fixture)
    (previous_argname : Option String) : List String :=
  if 1 < fixtures.length then
    printDupLoop argname
      (pySortByKey (fun fx => toLex (locationDepth fx.bestrel, fx.bestrel.data)) fixtures)
      previous_argname
  else []

/- ### Lemmas: the scan is a flat fold, the fold is a first-wins dedupe -/

/-- One name's slice of the scan sequence produced for one item. -/
def scanSeqName (gfd : String → String → Option (List FixtureDef))
    (nodeid : String) (argname : String) : List (String × FixtureDef) :=
  ((gfd argname nodeid).getD []).map (fun fd => (argname, fd))

/-- The flattened `(argname, fixturedef)` stream the nested loops process,
in processing order. -/

def scanSeq (names : List String) (items : List Item)
    (gfd : String → String → Option (List FixtureDef)) : List (String × FixtureDef) :=
  listFlatMap (fun it => listFlatMap (scanSeqName gfd it.nodeid) names) items

/-- Linear fold view of the accumulation. -/
def availFold (bestrelF : String → String) (avail : List (String × List Fixture)) :
    List (String × FixtureDef) → List (String × List Fixture)
  | [] => avail
  | p :: rest => availFold bestrelF (addFixture avail p.1 (mkFixture bestrelF p.2)) rest

def relpathUnder (p start : String) : String :=
  String.mk (p.data.drop start.data.length)

/-- `_get_cluster_name` (lines 193-194). -/
def _get_cluster_name (func_path cwd : String) : String :=
  if cwd.data.isPrefixOf func_path.data then relpathUnder func_path cwd else func_path

/-- `_get_fixture_node_name` (lines 197-201): `('', '')` when resolution
failed, else (cluster of the definition's file, the fixture name). -/

def _get_fixture_node_name (fixture_name : String) (fixture_def : Option FixtureDef)
    (cwd : String) : String × String :=
  match fixture_def with
  | none => ("", "")
  | some fd => (_get_cluster_name fd.funcPath cwd, fixture_name)

/-- One entry of a `depended_list` stored in `data`: the fixture loop stores
`(cluster, name)` pairs from `_get_fixture_node_name`, while the
`func_args` root entry (line 207) stores the raw request-name strings. -/

inductive DepItem where
  | pair (cluster name : String)
  | str (s : String)
deriving DecidableEq

def depItemOfPair (p : String × String) : DepItem := DepItem.pair p.1 p.2

/-- The nested `defaultdict(dict)` called `data` (line 205):
cluster name → fixture name → (depended list, fill color). -/

abbrev GraphData := List (String × List (String × (List DepItem × String)))

/-- `data[cluster_name][fixture_name] = value` on the `defaultdict(dict)`. -/
def dataSet (data : GraphData) (cluster name : String) (v : List DepItem × String) :
    GraphData :=
  alistSet cluster (alistSet name v ((alistGet? cluster data).getD [])) data

/-- The list comprehension at lines 220-227: one `_get_fixture_node_name`
of a `_find_fixture_def` resolution per declared dependency name. -/

def fixtureDepItems (reg : Registry) (cwd fixture_name : String) (fd : FixtureDef) :
    List DepItem :=
  fd.argnames.map (fun argname =>
    depItemOfPair (_get_fixture_node_name argname
      (_find_fixture_def fixture_name fd.funcPath argname reg) cwd))

/-- The `for fixture_def in fixture_defs:` loop (lines 216-227). -/
def graphDataDefsLoop (reg : Registry) (cwd fixture_name : String) (data : GraphData) :
    List FixtureDef → GraphData
  | [] => data
  | fd :: rest =>
    graphDataDefsLoop reg cwd fixture_name
      (dataSet data (_get_cluster_name fd.funcPath cwd) fixture_name
        (fixtureDepItems reg cwd fixture_name fd, "green"))
      rest

/-- The `for fixture_name, fixture_defs in ...` loop (lines 212-227) with
its `request` skip. -/

def graphDataNamesLoop (reg : Registry) (cwd : String) (data : GraphData) :
    Registry → GraphData
  | [] => data
  | nd :: rest =>
    graphDataNamesLoop reg cwd
      (if nd.1 = "request" then data else graphDataDefsLoop reg cwd nd.1 data nd.2)
      rest

/-- The complete `data` dict of `save_fixture_graph` (lines 204-227):
`func_args`, when truthy, first stores the raw request-name strings under
cluster `''`, key `'func_args'`, color `'red'`. -/

def fixtureGraphData (name2fixturedefs : Registry) (func_args : List String)
    (cwd : String) : GraphData :=
  graphDataNamesLoop name2fixturedefs cwd
    (if func_args ≠ [] then dataSet [] "" "func_args" (func_args.map DepItem.str, "red")
     else [])
    name2fixturedefs

/-- A `pydot.Node` as the code configures it, remembering its cluster. -/
structure PyNode where
  cluster : String
  id : String
  label : String
  fillcolor : String
deriving DecidableEq

/-- A `pydot.Edge` by source and destination node id. -/
structure PyEdge where
  src : String
  dst : String
deriving DecidableEq

/-- The pydot digraph: nodes (each inside its cluster subgraph) and edges. -/
structure PyGraph where
  nodes : List PyNode
  edges : List PyEdge
deriving DecidableEq

/-- Python tuple unpacking `dest_cluster, dest_name = item` (line 255): a
pair unpacks to its components; a string unpacks to its characters when it
has exactly two, any other length raises `ValueError`. -/

def unpackDepItem : DepItem → Except String (String × String)
  | DepItem.pair c n => .ok (c, n)
  | DepItem.str s =>
    match s.data with
    | [a, b] => .ok (String.mk [a], String.mk [b])
    | _ => .error ("ValueError: not a pair: " ++ s)

/-- The `for dest_cluster, dest_name in depended_list:` loop (lines
255-259): empty `dest_name` is skipped, otherwise an edge to the id
`dest_cluster + '/' + dest_name` is added to the graph. -/

def addDepEdges (nodeId : String) (g : PyGraph) : List DepItem → Except String PyGraph
  | [] => .ok g
  | it :: rest =>
    match unpackDepItem it with
    | .error e => .error e
    | .ok p =>
      if p.2 = "" then addDepEdges nodeId g rest
      else addDepEdges nodeId { g with edges := g.edges ++ [⟨nodeId, p.1 ++ "/" ++ p.2⟩] } rest

/-- The `for name, depended_list in ...` loop (lines 249-259): create the
node `func_path + "/" + name` (label `name`, filled with the stored color)
inside the cluster, then its edges. -/

def addClusterNodes (func_path : String) (g : PyGraph) :
    List (String × (List DepItem × String)) → Except String PyGraph
  | [] => .ok g
  | nv :: rest =>
    match addDepEdges (func_path ++ "/" ++ nv.1)
        { g with nodes := g.nodes ++ [⟨func_path, func_path ++ "/" ++ nv.1, nv.1, nv.2.2⟩] }
        nv.2.1 with
    | .error e => .error e
    | .ok g2 => addClusterNodes func_path g2 rest

/-- The `for func_path, subgraph_data in data.items():` loop (lines
238-259). -/

def pyGraphOfDataLoop (g : PyGraph) : GraphData → Except String PyGraph
  | [] => .ok g
  | cd :: rest =>
    match addClusterNodes cd.1 g cd.2 with
    | .error e => .error e
    | .ok g2 => pyGraphOfDataLoop g2 rest

/-- Assembling the pydot graph from `data` (lines 231-259); a `ValueError`
from tuple unpacking propagates. -/

def pyGraphOfData (data : GraphData) : Except String PyGraph :=
  pyGraphOfDataLoop ⟨[], []⟩ data

/- ### Graph exporter (`plugin.py` lines 20-27, 262-275) -/

/-- Observable side effects of the export tail, in order. -/
inductive ExportEvent where
  | mkdirDir (d : String)
  | termLine (s : String)
  | termSepLine (s : String)
  | wroteDot (path : String)
  | renderAttempt (path : String)
  | wroteImage (path : String)
deriving DecidableEq

/-- Lines 266-275: the terminal lines and file writes after `data` is
assembled.  `renderResult` is the outcome of the external graphviz
invocation `graph.write(..., format=...)`; the `try`/`except Exception`
catches any failure and prints the manual-render hint instead. -/

def exportTail (filename output_type : String) (renderResult : Except String Unit) :
    List ExportEvent :=
  [ExportEvent.termLine "", ExportEvent.termSepLine "fixture-graph",
   ExportEvent.termLine ("created " ++ filename ++ ".dot."),
   ExportEvent.wroteDot (filename ++ ".dot"),
   ExportEvent.renderAttempt (filename ++ "." ++ output_type)] ++
  (match renderResult with
   | .ok _ =>
     [ExportEvent.wroteImage (filename ++ "." ++ output_type),
      ExportEvent.termLine ("created " ++ filename ++ "." ++ output_type ++ ".")]
   | .error _ =>
     [ExportEvent.termLine "graphvis was not found in PATH",
      ExportEvent.termLine ("You can convert it to a PNG using: dot -Tpng " ++
        filename ++ ".dot -o " ++ filename ++ ".png")])

/-- `save_fixture_graph` (lines 204-275): build `data`, assemble the graph
(a `ValueError` from the unpacking propagates as `.error`), create the
output directory and emit the export events.  The graph value and the event
trace are returned for inspection. -/

def save_fixture_graph (name2fixturedefs : Registry) (func_args : List String)
    (cwd log_dir output_type filename : String) (renderResult : Except String Unit) :
    Except String (PyGraph × List ExportEvent) :=
  match pyGraphOfData (fixtureGraphData name2fixturedefs func_args cwd) with
  | .error e => .error e
  | .ok graph =>
    .ok (graph,
      ExportEvent.mkdirDir log_dir ::
        exportTail (pathJoin log_dir filename) output_type renderResult)

/- ### Spec-side ancestor chain (for stating the termination claim) -/

def dirnameChainFuel : Nat → String → List String
  | 0, _ => []
  | f + 1, p => if dirname p = p then [] else dirname p :: dirnameChainFuel f (dirname p)

/-- The chain of iterated parent directories of `p`, nearest first, stopping
at the `dirname` fixed point.  Stated from the spec's words to compare with
`_get_fixture_search_order`. -/

def dirnameChain (p : String) : List String := dirnameChainFuel p.length p

/- ### Concrete scenario inputs used by the claims -/

def fdC1A : FixtureDef := ⟨"/conftest.py", "", "m", "/conftest.py:1", []⟩

def fdC1B : FixtureDef := ⟨"/r/conftest.py", "r", "m", "/r/conftest.py:1", []⟩

def fdC1C : FixtureDef := ⟨"/r/a/conftest.py", "r/a", "m", "/r/a/conftest.py:1", []⟩

def regC1all : Registry := [("beta", [fdC1A, fdC1B, fdC1C])]

def regC1ab : Registry := [("beta", [fdC1A, fdC1B])]

def regC1a : Registry := [("beta", [fdC1A])]

def regC1self : Registry := [("beta", [fdC1C, fdC1B])]

def fdW1 : FixtureDef := ⟨"/z1.py", "", "m", "/z1.py:1", []⟩

def fdW2 : FixtureDef := ⟨"/z2.py", "", "m", "/z2.py:1", []⟩

def regW : Registry := [("n", [fdW1, fdW2])]

def fdC3A : FixtureDef := ⟨"/r/conftest.py", "", "m", "/r/conftest.py:5", []⟩

def fdC3B : FixtureDef := ⟨"/r/api/conftest.py", "r", "m", "/r/api/conftest.py:5", []⟩

/-- A fixture tuple whose declaring location `/r/conftest.py` is shallow
(scope depth 2) but sorts late as a string. -/

def fxC3A : Fixture := ⟨2, "m", "/r/conftest.py", fdC3A⟩

/-- A fixture tuple whose declaring location `/r/api/conftest.py` is deeper
(scope depth 3) but sorts early as a string. -/

def fxC3B : Fixture := ⟨3, "m", "/r/api/conftest.py", fdC3B⟩

def fdC4 : FixtureDef := ⟨"/r/conftest.py", "", "m", "/r/conftest.py:10", []⟩

def regC4 : Registry := [("db", [fdC4])]

def itemsC4 : List Item := [⟨"test_a.py::test_one"⟩]

def gfdC4 : String → String → Option (List FixtureDef) :=
  fun n _ => if n = "db" then some [fdC4] else none

def fdC5db : FixtureDef := ⟨"/root/conftest", "", "m", "/root/conftest:1", []⟩

def fdC5client : FixtureDef := ⟨"/root/api/conftest", "api", "m", "/root/api/conftest:1", ["db"]⟩

/-- The spec's end-to-end registry: `db` at `/root/conftest` with no
dependencies, `client` at `/root/api/conftest` depending on `db`. -/

def regC5 : Registry := [("db", [fdC5db]), ("client", [fdC5client])]

def fdC6db : FixtureDef := ⟨"/root/conftest", "", "m", "/root/conftest:1", []⟩

def regC6 : Registry := [("db", [fdC6db])]

/-- The graph the code builds for a consumer directly requesting `db`: the
root's edge goes to the id `d/b`, spelled from the two characters of the
request name, and no node has that id. -/

def gC6 : PyGraph :=
  ⟨[⟨"", "/func_args", "func_args", "red"⟩,
    ⟨"/root/conftest", "/root/conftest/db", "db", "green"⟩],
   [⟨"/func_args", "d/b"⟩]⟩

def fdC7a : FixtureDef := ⟨"/r/conftest.py", "", "m", "/r/conftest.py:3", []⟩

def fdC7b : FixtureDef := ⟨"/r/conftest.py", "x", "m2", "/r/conftest.py:3", []⟩

def itemsC7 : List Item := [⟨"t"⟩]

def gfdC7 : String → String → Option (List FixtureDef) :=
  fun n _ => if n = "db" then some [fdC7a, fdC7b] else none

/-- Membership in `listFlatMap`. -/
theorem mem_listFlatMap {α β : Type} (f : α → List β) (l : List α) (b : β) :
    b ∈ listFlatMap f l ↔ ∃ a ∈ l, b ∈ f a := by
  induction l with
  | nil => simp [listFlatMap]
  | cons x xs ih =>
    simp [listFlatMap, List.mem_append, ih]

/-- Python `list.index(x)` starting the count at `n`: first index whose
element equals `x`, `none` when absent (`ValueError` in Python). -/

theorem listIndexFrom_eq_none {x : String} {l : List String} (h : x ∉ l) :
    ∀ n, listIndexFrom x l n = none := by
  induction l with
  | nil => intro n; rfl
  | cons y ys ih =>
    intro n
    have hy : y ≠ x := fun hyx => h (hyx ▸ List.mem_cons_self y ys)
    have hx : x ∉ ys := fun hmem => h (List.mem_cons_of_mem y hmem)
    simp [listIndexFrom, hy, ih hx]

theorem listIndexFrom_lt {x : String} {l : List String} :
    ∀ {n i : Nat}, listIndexFrom x l n = some i → i < n + l.length := by
  induction l with
  | nil => intro n i h; simp [listIndexFrom] at h
  | cons y ys ih =>
    intro n i h
    by_cases hy : y = x
    · rw [listIndexFrom, if_pos hy] at h
      injection h with h
      simp only [List.length_cons]
      omega
    · rw [listIndexFrom, if_neg hy] at h
      have := ih h
      simp only [List.length_cons]
      omega

/- ### POSIX path model (`os.path.dirname`, `os.path.join`) -/

/-- `posixpath.dirname` on the character list of a path: take everything up
to and including the last slash, then strip trailing slashes unless the
result consists of slashes only.  Mirrors `posixpath.split`'s head. -/

theorem myLength_dropWhile_le {α : Type} (q : α → Bool) (l : List α) :
    (l.dropWhile q).length ≤ l.length := by
  induction l with
  | nil => simp [List.dropWhile]
  | cons x xs ih =>
    by_cases hx : q x
    · simp [List.dropWhile, hx]; omega
    · simp [List.dropWhile, hx]

theorem dropWhile_eq_or_lt {α : Type} (q : α → Bool) (l : List α) :
    l.dropWhile q = l ∨ (l.dropWhile q).length < l.length := by
  induction l with
  | nil => left; rfl
  | cons x xs _ =>
    by_cases hx : q x
    · right
      have := myLength_dropWhile_le q xs
      simp [List.dropWhile, hx]
      omega
    · left; simp [List.dropWhile, hx]

theorem dropWhile_head_false {α : Type} (q : α → Bool) (l : List α)
    {y : α} {ys : List α} (h : l.dropWhile q = y :: ys) : q y = false := by
  induction l with
  | nil => simp [List.dropWhile] at h
  | cons x xs ih =>
    by_cases hx : q x
    · have h' : xs.dropWhile q = y :: ys := by
        rw [← h]; simp [List.dropWhile, hx]
      exact ih h'
    · have hxy : x :: xs = y :: ys := by
        rw [← h]; simp [List.dropWhile, hx]
      cases hxy
      simpa using hx

/-- `dirnameChars` is either the identity (a fixed point, reached at the
filesystem root) or strictly shortens the path. -/

theorem dirnameChars_eq_or_lt (l : List Char) :
    dirnameChars l = l ∨ (dirnameChars l).length < l.length := by
  by_cases hall : ((l.reverse.dropWhile (fun c => c != '/')).all (fun c => c == '/')) = true
  · rcases dropWhile_eq_or_lt (fun c => c != '/') l.reverse with heq | hlt
    · left
      unfold dirnameChars
      rw [if_pos hall, heq, List.reverse_reverse]
    · right
      unfold dirnameChars
      rw [if_pos hall, List.length_reverse]
      rw [List.length_reverse] at hlt
      exact hlt
  · rcases hr1 : l.reverse.dropWhile (fun c => c != '/') with _ | ⟨y, ys⟩
    · exact absurd (by rw [hr1]; rfl) hall
    · right
      unfold dirnameChars
      rw [if_neg hall, hr1]
      have hy : ((fun c => c != '/') y) = false :=
        dropWhile_head_false (fun c => c != '/') l.reverse hr1
      have hy' : (y == '/') = true := by
        simpa [bne] using hy
      have h1 : ((ys.dropWhile (fun c => c == '/'))).length ≤ ys.length :=
        myLength_dropWhile_le _ ys
      have h2 : (y :: ys).length ≤ l.length := by
        have hle := myLength_dropWhile_le (fun c => c != '/') l.reverse
        rw [hr1, List.length_reverse] at hle
        exact hle
      simp only [List.length_cons] at h2
      simp only [List.dropWhile_cons, hy', if_true, List.length_reverse]
      omega

theorem dirname_eq_or_lt (p : String) :
    dirname p = p ∨ (dirname p).length < p.length := by
  rcases dirnameChars_eq_or_lt p.data with h | h
  · left
    exact String.ext h
  · right
    have h1 : (dirname p).length = (dirnameChars p.data).length := String.length_mk _
    have h2 : p.length = p.data.length := by
      rcases p with ⟨d⟩
      exact String.length_mk d
    omega

theorem dirname_length_lt {p : String} (h : dirname p ≠ p) :
    (dirname p).length < p.length :=
  (dirname_eq_or_lt p).resolve_left h

/- ### Scope model: `_get_fixture_search_order` (plugin.py lines 151-156)

The Python function recurses on `os.path.dirname`; the recursion is realised
here with a fuel argument bounded by the path length, which
`dirname_length_lt` proves sufficient (the termination argument the original
code leaves implicit). -/

theorem searchOrderFuel_succ (f : Nat) (p : String) :
    searchOrderFuel (f + 1) p =
      if dirname p = p then []
      else pathJoin (dirname p) "conftest.py" :: searchOrderFuel f (dirname p) := rfl

theorem searchOrderFuel_base {p : String} (h : dirname p = p) :
    ∀ fuel, searchOrderFuel fuel p = [] := by
  intro fuel
  cases fuel with
  | zero => rfl
  | succ f => rw [searchOrderFuel_succ, if_pos h]

theorem string_length_pos_of_dirname_ne {p : String} (h : dirname p ≠ p) :
    0 < p.length := by
  rcases p with ⟨data⟩
  cases data with
  | nil => exact absurd rfl h
  | cons c cs =>
    rw [String.length_mk]
    simp

/-- Fuel at least the path length computes the function. -/
theorem searchOrderFuel_sufficient :
    ∀ (fuel : Nat) (p : String), p.length ≤ fuel →
      searchOrderFuel fuel p = searchOrderFuel p.length p := by
  intro fuel
  induction fuel using Nat.strong_induction_on with
  | _ fuel ih =>
    intro p hp
    by_cases hd : dirname p = p
    · rw [searchOrderFuel_base hd, searchOrderFuel_base hd]
    · have hpos : 0 < p.length := string_length_pos_of_dirname_ne hd
      have hlt : (dirname p).length < p.length := dirname_length_lt hd
      obtain ⟨f, rfl⟩ : ∃ f, fuel = f + 1 := ⟨fuel - 1, by omega⟩
      obtain ⟨k, hk⟩ : ∃ k, p.length = k + 1 := ⟨p.length - 1, by omega⟩
      rw [searchOrderFuel_succ, hk, searchOrderFuel_succ, if_neg hd, if_neg hd]
      congr 1
      have h1 : searchOrderFuel f (dirname p) = searchOrderFuel (dirname p).length (dirname p) :=
        ih f (by omega) (dirname p) (by omega)
      have h2 : searchOrderFuel k (dirname p) = searchOrderFuel (dirname p).length (dirname p) :=
        ih k (by omega) (dirname p) (by omega)
      rw [h1, h2]

/-- The recursion equation of `_get_fixture_search_order` in the
non-fixed-point case. -/

theorem searchOrder_unfold {p : String} (h : dirname p ≠ p) :
    _get_fixture_search_order p =
      pathJoin (dirname p) "conftest.py" :: _get_fixture_search_order (dirname p) := by
  have hpos : 0 < p.length := string_length_pos_of_dirname_ne h
  have hlt : (dirname p).length < p.length := dirname_length_lt h
  obtain ⟨k, hk⟩ : ∃ k, p.length = k + 1 := ⟨p.length - 1, by omega⟩
  unfold _get_fixture_search_order
  rw [hk, searchOrderFuel_succ, if_neg h]
  congr 1
  exact searchOrderFuel_sufficient k (dirname p) (by omega)

theorem searchOrderFuel_length_le :
    ∀ (fuel : Nat) (p : String), (searchOrderFuel fuel p).length ≤ p.length := by
  intro fuel
  induction fuel with
  | zero => intro p; simp [searchOrderFuel]
  | succ f ih =>
    intro p
    by_cases hd : dirname p = p
    · rw [searchOrderFuel_succ, if_pos hd]
      simp
    · have hrec := ih (dirname p)
      have hlt := dirname_length_lt hd
      rw [searchOrderFuel_succ, if_neg hd]
      simp only [List.length_cons]
      omega

theorem pyInsertByKey_perm {α κ : Type} [LinearOrder κ] (key : α → κ) (x : α) (l : List α) :
    (pyInsertByKey key x l).Perm (x :: l) := by
  induction l with
  | nil => exact List.Perm.refl _
  | cons y ys ih =>
    by_cases hle : key x ≤ key y
    · simp [pyInsertByKey, hle]
    · rw [pyInsertByKey, if_neg hle]
      exact (ih.cons y).trans (List.Perm.swap x y ys)

theorem pySortByKey_perm {α κ : Type} [LinearOrder κ] (key : α → κ) (l : List α) :
    (pySortByKey key l).Perm l := by
  induction l with
  | nil => exact List.Perm.refl _
  | cons x xs ih =>
    exact (pyInsertByKey_perm key x (pySortByKey key xs)).trans (ih.cons x)

theorem mem_pySortByKey {α κ : Type} [LinearOrder κ] {key : α → κ} {l : List α} {a : α} :
    a ∈ pySortByKey key l ↔ a ∈ l :=
  (pySortByKey_perm key l).mem_iff

theorem length_pySortByKey {α κ : Type} [LinearOrder κ] (key : α → κ) (l : List α) :
    (pySortByKey key l).length = l.length :=
  (pySortByKey_perm key l).length_eq

theorem mem_pyInsertByKey {α κ : Type} [LinearOrder κ] {key : α → κ} {x a : α} {l : List α} :
    a ∈ pyInsertByKey key x l ↔ a = x ∨ a ∈ l := by
  rw [(pyInsertByKey_perm key x l).mem_iff]
  simp

/-- Inserting never disturbs the elements of any fixed key-class except to
put the new element in front of none of its equals (the passed-over elements
all have strictly smaller keys). -/

theorem filter_pyInsertByKey {α κ : Type} [LinearOrder κ] (key : α → κ) (x : α)
    (l : List α) (n : κ) :
    (pyInsertByKey key x l).filter (fun a => decide (key a = n)) =
      if key x = n then x :: l.filter (fun a => decide (key a = n))
      else l.filter (fun a => decide (key a = n)) := by
  induction l with
  | nil =>
    by_cases h : key x = n <;> simp [pyInsertByKey, List.filter, h]
  | cons y ys ih =>
    by_cases hle : key x ≤ key y
    · rw [pyInsertByKey, if_pos hle]
      by_cases h : key x = n <;> simp [List.filter, h]
    · rw [pyInsertByKey, if_neg hle]
      have hyx : key y < key x := not_le.mp hle
      by_cases hxn : key x = n
      · have hyn : ¬ key y = n := by
          intro hyn
          exact absurd (hyn.trans hxn.symm ▸ le_refl (key y)) (not_le.mpr hyx)
        simp [List.filter, hyn, ih, hxn]
      · by_cases hyn : key y = n <;> simp [List.filter, hyn, ih, hxn]

/-- Stability of the sort: each key-class is preserved verbatim, in its
original relative order. -/

theorem pySortByKey_filter_key {α κ : Type} [LinearOrder κ] (key : α → κ)
    (l : List α) (n : κ) :
    (pySortByKey key l).filter (fun a => decide (key a = n)) =
      l.filter (fun a => decide (key a = n)) := by
  induction l with
  | nil => rfl
  | cons x xs ih =>
    rw [pySortByKey, filter_pyInsertByKey]
    by_cases h : key x = n <;> simp [List.filter, h, ih]

/-- Sorting a list whose keys are all equal is the identity (a special case
of stability). -/

theorem pySortByKey_const {α κ : Type} [LinearOrder κ] {key : α → κ} {c : κ} :
    ∀ {l : List α}, (∀ a ∈ l, key a = c) → pySortByKey key l = l := by
  intro l
  induction l with
  | nil => intro _; rfl
  | cons x xs ih =>
    intro h
    rw [pySortByKey, ih (fun a ha => h a (List.mem_cons_of_mem x ha))]
    cases xs with
    | nil => rfl
    | cons y ys =>
      have hx : key x = c := h x (List.mem_cons_self _ _)
      have hy : key y = c := h y (List.mem_cons_of_mem x (List.mem_cons_self _ _))
      rw [pyInsertByKey, if_pos (by rw [hx, hy])]

theorem pairwise_pyInsertByKey {α κ : Type} [LinearOrder κ] {key : α → κ} (x : α)
    {l : List α} (h : l.Pairwise (fun a b => key a ≤ key b)) :
    (pyInsertByKey key x l).Pairwise (fun a b => key a ≤ key b) := by
  induction l with
  | nil => simp [pyInsertByKey]
  | cons y ys ih =>
    rcases List.pairwise_cons.mp h with ⟨hy, hys⟩
    by_cases hle : key x ≤ key y
    · rw [pyInsertByKey, if_pos hle]
      refine List.pairwise_cons.mpr ⟨?_, h⟩
      intro z hz
      rcases List.mem_cons.mp hz with rfl | hz
      · exact hle
      · exact le_trans hle (hy z hz)
    · rw [pyInsertByKey, if_neg hle]
      refine List.pairwise_cons.mpr ⟨?_, ih hys⟩
      intro z hz
      rcases mem_pyInsertByKey.mp hz with rfl | hz
      · exact le_of_lt (not_le.mp hle)
      · exact hy z hz

/-- The sort sorts: the output is ascending in the key. -/
theorem pySortByKey_sorted {α κ : Type} [LinearOrder κ] (key : α → κ) (l : List α) :
    (pySortByKey key l).Pairwise (fun a b => key a ≤ key b) := by
  induction l with
  | nil => simp [pySortByKey]
  | cons x xs ih => exact pairwise_pyInsertByKey x ih

theorem alistGet?_set_self {β : Type} (k : String) (v : β) (l : List (String × β)) :
    alistGet? k (alistSet k v l) = some v := by
  induction l with
  | nil => simp [alistGet?, alistSet]
  | cons kv rest ih =>
    by_cases h : kv.1 = k
    · simp [alistSet, h, alistGet?]
    · simp [alistSet, h, alistGet?, ih]

theorem alistGet?_set_ne {β : Type} {k k' : String} (hne : k' ≠ k) (v : β)
    (l : List (String × β)) :
    alistGet? k' (alistSet k v l) = alistGet? k' l := by
  have hkk : ¬ (k = k') := fun h => hne h.symm
  induction l with
  | nil => simp [alistGet?, alistSet, hkk]
  | cons kv rest ih =>
    by_cases h : kv.1 = k
    · simp [alistSet, h, alistGet?, hkk]
    · by_cases h' : kv.1 = k'
      · simp [alistSet, h, alistGet?, h', hne]
      · simp [alistSet, h, alistGet?, h', ih]

theorem alistGet?_mem {β : Type} {k : String} {v : β} :
    ∀ {l : List (String × β)}, alistGet? k l = some v → (k, v) ∈ l := by
  intro l
  induction l with
  | nil => intro h; simp [alistGet?] at h
  | cons kv rest ih =>
    intro h
    by_cases hk : kv.1 = k
    · rw [alistGet?, if_pos hk] at h
      injection h with h
      have hkv : kv = (k, v) := by
        rcases kv with ⟨a, b⟩
        simp only at hk h
        rw [hk, h]
      rw [← hkv]
      exact List.mem_cons_self _ _
    · rw [alistGet?, if_neg hk] at h
      exact List.mem_cons_of_mem kv (ih h)

theorem alistGet?_eq_none_not_key {β : Type} {k : String} :
    ∀ {l : List (String × β)}, alistGet? k l = none → k ∉ l.map (fun kv => kv.1) := by
  intro l
  induction l with
  | nil => intro _; simp
  | cons kv rest ih =>
    intro h
    by_cases hk : kv.1 = k
    · rw [alistGet?, if_pos hk] at h
      exact absurd h (by simp)
    · rw [alistGet?, if_neg hk] at h
      simp only [List.map_cons, List.mem_cons]
      rintro (rfl | hmem)
      · exact hk rfl
      · exact ih h hmem

/- ### Data model: definitions, consumers -/

/-- One pytest `FixtureDef` as the core sees it. `funcPath` is what
`inspect.getfile(fixture_def.func)` returns (the per-run `path_cache` of
`_get_func_path` memoizes this pure lookup, so it is modelled as a field);
`locStr` is what `_pytest.python.getlocation(fixture_def.func, curdir)`
returns; `baseid`, `module` and `argnames` are the attributes the code
reads. -/

theorem head?_mem {α : Type} {l : List α} {a : α} (h : l.head? = some a) : a ∈ l := by
  cases l with
  | nil => simp at h
  | cons x xs =>
    rw [List.head?_cons] at h
    injection h with h
    rw [← h]
    exact List.mem_cons_self _ _

/-- A successful resolution returns one of the registry's own candidates for
the wanted name. -/

theorem find_fixture_def_mem {source_fixture_name func_path fixture_name : String}
    {reg : Registry} {fd : FixtureDef}
    (h : _find_fixture_def source_fixture_name func_path fixture_name reg = some fd) :
    ∃ defs, alistGet? fixture_name reg = some defs ∧ fd ∈ defs := by
  unfold _find_fixture_def at h
  rcases hget : alistGet? fixture_name reg with _ | defs
  · rw [hget] at h
    simp at h
  · rw [hget] at h
    exact ⟨defs, rfl, mem_pySortByKey.mp (head?_mem h)⟩

/- ### Duplicate detector (`plugin.py` lines 16-17, 64-123) -/

/-- The fixture tuple built at lines 106-111:
`(len(fixturedef.baseid), fixturedef.func.__module__,
curdir.bestrelpath(loc), fixturedef)`. -/

theorem availFold_append (bestrelF : String → String) :
    ∀ (l1 l2 : List (String × FixtureDef)) (a : List (String × List Fixture)),
      availFold bestrelF a (l1 ++ l2) = availFold bestrelF (availFold bestrelF a l1) l2 := by
  intro l1
  induction l1 with
  | nil => intro l2 a; rfl
  | cons p rest ih =>
    intro l2 a
    rw [List.cons_append, availFold, availFold]
    exact ih l2 _

theorem scanArgFold_eq_availFold (bestrelF : String → String) (argname : String) :
    ∀ (fds : List FixtureDef) (a : List (String × List Fixture)),
      scanArgFold bestrelF argname a fds =
        availFold bestrelF a (fds.map (fun fd => (argname, fd))) := by
  intro fds
  induction fds with
  | nil => intro a; rfl
  | cons fd rest ih =>
    intro a
    rw [scanArgFold, List.map_cons, availFold]
    exact ih _

theorem scanNamesLoop_ok {gfd : String → String → Option (List FixtureDef)}
    {bestrelF : String → String} {nodeid : String} :
    ∀ {names : List String} {a a' : List (String × List Fixture)},
      scanNamesLoop gfd bestrelF nodeid a names = .ok a' →
      a' = availFold bestrelF a (listFlatMap (scanSeqName gfd nodeid) names) := by
  intro names
  induction names with
  | nil =>
    intro a a' h
    injection h with h
    rw [← h]
    rfl
  | cons argname rest ih =>
    intro a a' h
    rcases hg : gfd argname nodeid with _ | fds
    · rw [scanNamesLoop, hg] at h
      exact absurd h (by simp)
    · rw [scanNamesLoop, hg] at h
      have := ih h
      rw [this, listFlatMap, availFold_append]
      congr 1
      rw [scanArgFold_eq_availFold]
      congr 1
      rw [scanSeqName, hg]
      rfl

theorem scanItemsLoop_ok {gfd : String → String → Option (List FixtureDef)}
    {bestrelF : String → String} {names : List String} :
    ∀ {items : List Item} {a a' : List (String × List Fixture)},
      scanItemsLoop names gfd bestrelF a items = .ok a' →
      a' = availFold bestrelF a
        (listFlatMap (fun it => listFlatMap (scanSeqName gfd it.nodeid) names) items) := by
  intro items
  induction items with
  | nil =>
    intro a a' h
    injection h with h
    rw [← h]
    rfl
  | cons it rest ih =>
    intro a a' h
    rcases hs : scanNamesLoop gfd bestrelF it.nodeid a names with e | aNext
    · rw [scanItemsLoop, hs] at h
      exact absurd h (by simp)
    · rw [scanItemsLoop, hs] at h
      have h2 := ih h
      rw [h2, listFlatMap, availFold_append]
      congr 1
      exact scanNamesLoop_ok hs

/-- The whole scan, when it completes without tripping the assertion, equals
the linear fold over the flattened scan sequence. -/

theorem scanFixtures_ok {names : List String} {items : List Item}
    {gfd : String → String → Option (List FixtureDef)} {bestrelF : String → String}
    {a' : List (String × List Fixture)}
    (h : scanFixtures names items gfd bestrelF = .ok a') :
    a' = availFold bestrelF [] (scanSeq names items gfd) :=
  scanItemsLoop_ok h

theorem availAt_addFixture (a : List (String × List Fixture)) (m n : String) (fx : Fixture) :
    availAt (addFixture a m fx) n =
      if n = m then
        (if fx.bestrel ∈ (availAt a m).map (fun f => f.bestrel) then availAt a m
         else availAt a m ++ [fx])
      else availAt a n := by
  unfold addFixture
  by_cases hmem : fx.bestrel ∈ (availAt a m).map (fun f => f.bestrel)
  · rw [if_pos hmem]
    by_cases hnm : n = m
    · rw [if_pos hnm, if_pos hmem, hnm]
    · rw [if_neg hnm]
  · rw [if_neg hmem]
    by_cases hnm : n = m
    · subst hnm
      rw [if_pos rfl, if_neg hmem]
      unfold availAt
      rw [alistGet?_set_self]
      rfl
    · rw [if_neg hnm]
      unfold availAt
      rw [alistGet?_set_ne hnm]

theorem dedupeFirstByLocation_cons (seen : List String) (fx : Fixture) (rest : List Fixture) :
    dedupeFirstByLocation seen (fx :: rest) =
      if fx.bestrel ∈ seen then dedupeFirstByLocation seen rest
      else fx :: dedupeFirstByLocation (seen ++ [fx.bestrel]) rest := rfl

/-- Per-name view of the accumulation: each name's group is the first-wins
location dedupe of that name's slice of the scan sequence. -/

theorem availAt_availFold (bestrelF : String → String) :
    ∀ (S : List (String × FixtureDef)) (a : List (String × List Fixture)) (n : String),
      availAt (availFold bestrelF a S) n =
        availAt a n ++
          dedupeFirstByLocation ((availAt a n).map (fun f => f.bestrel))
            ((S.filter (fun p => decide (p.1 = n))).map (fun p => mkFixture bestrelF p.2)) := by
  intro S
  induction S with
  | nil =>
    intro a n
    simp [availFold, List.filter, dedupeFirstByLocation]
  | cons p rest ih =>
    intro a n
    rcases p with ⟨m, fd⟩
    rw [availFold]
    by_cases hmn : m = n
    · subst hmn
      have hfilt : ((m, fd) :: rest).filter (fun p => decide (p.1 = m)) =
          (m, fd) :: rest.filter (fun p => decide (p.1 = m)) := by
        simp [List.filter_cons]
      rw [ih, availAt_addFixture, if_pos rfl, hfilt, List.map_cons,
        dedupeFirstByLocation_cons]
      by_cases hmem : (mkFixture bestrelF fd).bestrel ∈ (availAt a m).map (fun f => f.bestrel)
      · rw [if_pos hmem, if_pos hmem]
      · rw [if_neg hmem, if_neg hmem, List.map_append]
        simp
    · have hfilt : ((m, fd) :: rest).filter (fun p => decide (p.1 = n)) =
          rest.filter (fun p => decide (p.1 = n)) := by
        simp [List.filter_cons, hmn]
      rw [ih, availAt_addFixture, if_neg (fun hn => hmn hn.symm), hfilt]

theorem dedupeFirstByLocation_nodup :
    ∀ (l : List Fixture) (seen : List String),
      ((dedupeFirstByLocation seen l).map (fun f => f.bestrel)).Nodup ∧
      ∀ s ∈ (dedupeFirstByLocation seen l).map (fun f => f.bestrel), s ∉ seen := by
  intro l
  induction l with
  | nil =>
    intro seen
    constructor
    · simp [dedupeFirstByLocation]
    · simp [dedupeFirstByLocation]
  | cons fx rest ih =>
    intro seen
    by_cases h : fx.bestrel ∈ seen
    · rw [dedupeFirstByLocation, if_pos h]
      exact ih seen
    · rw [dedupeFirstByLocation, if_neg h]
      rcases ih (seen ++ [fx.bestrel]) with ⟨hnd, hdisj⟩
      constructor
      · rw [List.map_cons]
        refine List.nodup_cons.mpr ⟨?_, hnd⟩
        intro hmem
        have := hdisj _ hmem
        simp at this
      · intro s hs
        rw [List.map_cons] at hs
        rcases List.mem_cons.mp hs with rfl | hs'
        · exact h
        · have := hdisj s hs'
          intro hseen
          exact this (List.mem_append_left _ hseen)

theorem dedupeFirstByLocation_covers :
    ∀ (l : List Fixture) (seen : List String) (fx : Fixture), fx ∈ l →
      fx.bestrel ∈ seen ∨
        fx.bestrel ∈ (dedupeFirstByLocation seen l).map (fun f => f.bestrel) := by
  intro l
  induction l with
  | nil => intro seen fx h; simp at h
  | cons hd rest ih =>
    intro seen fx hmem
    rcases List.mem_cons.mp hmem with rfl | hmem'
    · by_cases h : fx.bestrel ∈ seen
      · exact Or.inl h
      · right
        rw [dedupeFirstByLocation, if_neg h, List.map_cons]
        exact List.mem_cons_self _ _
    · by_cases h : hd.bestrel ∈ seen
      · rw [dedupeFirstByLocation, if_pos h]
        exact ih seen fx hmem'
      · rw [dedupeFirstByLocation, if_neg h, List.map_cons]
        rcases ih (seen ++ [hd.bestrel]) fx hmem' with hin | hin
        · rcases List.mem_append.mp hin with hin' | hin'
          · exact Or.inl hin'
          · right
            simp at hin'
            rw [hin']
            exact List.mem_cons_self _ _
        · exact Or.inr (List.mem_cons_of_mem _ hin)

/- ### Dependency graph builder (`plugin.py` lines 193-259) -/

/-- `os.path.relpath(p, start)` in the only situation the code reaches it:
`start` is `os.getcwd() + os.sep` (so it ends with the separator) and is a
string prefix of the normalized absolute path `p`; there the relative path
is the suffix of `p` after `start`. -/

/- ### Helper lemmas about the printing loop -/

theorem printDupLoop_cons (argname : String) (fx : Fixture) (rest : List Fixture)
    (prev : Option String) :
    printDupLoop argname (fx :: rest) prev =
      if prev ≠ some argname then
        "" :: twSep argname ::
          ((if verbose ≤ 0 ∧ argname.data.head? = some '_' then [] else [fx.bestrel]) ++
            printDupLoop argname rest (some argname))
      else
        (if verbose ≤ 0 ∧ argname.data.head? = some '_' then [] else [fx.bestrel]) ++
          printDupLoop argname rest prev := rfl

theorem not_verbose_cond (argname : String) :
    ¬ ((verbose ≤ 0) ∧ argname.data.head? = some '_') :=
  fun h => absurd h.1 (by decide)

theorem printDupLoop_same (argname : String) :
    ∀ l : List Fixture,
      printDupLoop argname l (some argname) = l.map (fun f => f.bestrel) := by
  intro l
  induction l with
  | nil => rfl
  | cons fx rest ih =>
    rw [printDupLoop_cons, if_neg (fun h => h rfl), if_neg (not_verbose_cond argname), ih]
    rfl

theorem printDupLoop_fresh (argname : String) (fx : Fixture) (rest : List Fixture) :
    printDupLoop argname (fx :: rest) none =
      "" :: twSep argname :: fx.bestrel :: rest.map (fun f => f.bestrel) := by
  rw [printDupLoop_cons, if_pos (by simp), if_neg (not_verbose_cond argname),
    printDupLoop_same]
  rfl

theorem print_duplicates_le_one {argname : String} {fixtures : List Fixture}
    {prev : Option String} (h : fixtures.length ≤ 1) :
    print_duplicates argname fixtures prev = [] := by
  unfold print_duplicates
  rw [if_neg (by omega)]

theorem print_duplicates_eq (argname : String) (fixtures : List Fixture)
    (h : 2 ≤ fixtures.length) :
    print_duplicates argname fixtures none =
      "" :: twSep argname ::
        (pySortByKey (fun fx => fx.bestrel.data) fixtures).map (fun f => f.bestrel) := by
  unfold print_duplicates
  rw [if_pos (by omega)]
  rcases hs : pySortByKey (fun fx => fx.bestrel.data) fixtures with _ | ⟨fx, rest⟩
  · have hlen := length_pySortByKey (fun fx : Fixture => fx.bestrel.data) fixtures
    rw [hs] at hlen
    simp at hlen
    omega
  · rw [hs, printDupLoop_fresh, List.map_cons]

/- ### Helper lemmas about the ancestor chain -/

theorem dirnameChainFuel_succ (f : Nat) (p : String) :
    dirnameChainFuel (f + 1) p =
      if dirname p = p then [] else dirname p :: dirnameChainFuel f (dirname p) := rfl

theorem searchOrderFuel_eq_chainMap :
    ∀ (f : Nat) (p : String),
      searchOrderFuel f p =
        (dirnameChainFuel f p).map (fun d => pathJoin d "conftest.py") := by
  intro f
  induction f with
  | zero => intro p; rfl
  | succ k ih =>
    intro p
    by_cases hd : dirname p = p
    · rw [searchOrderFuel_succ, dirnameChainFuel_succ, if_pos hd, if_pos hd]
      rfl
    · rw [searchOrderFuel_succ, dirnameChainFuel_succ, if_neg hd, if_neg hd,
        List.map_cons, ih]

theorem chain_dirnameChainFuel :
    ∀ (f : Nat) (p : String),
      List.Chain' (fun a b => dirname a = b) (p :: dirnameChainFuel f p) := by
  intro f
  induction f with
  | zero => intro p; simp [dirnameChainFuel]
  | succ k ih =>
    intro p
    by_cases hd : dirname p = p
    · rw [dirnameChainFuel_succ, if_pos hd]
      simp
    · rw [dirnameChainFuel_succ, if_neg hd]
      exact List.chain'_cons.mpr ⟨rfl, ih (dirname p)⟩

/- ### Helper lemmas about the scan -/

theorem filter_eq_nil_of {α : Type} {p : α → Bool} :
    ∀ {l : List α}, (∀ a ∈ l, p a = false) → l.filter p = [] := by
  intro l
  induction l with
  | nil => intro _; rfl
  | cons x xs ih =>
    intro h
    rw [List.filter_cons, if_neg (by simp [h x (List.mem_cons_self _ _)])]
    exact ih (fun a ha => h a (List.mem_cons_of_mem _ ha))

theorem scanSeq_fst_mem {names : List String} {items : List Item}
    {gfd : String → String → Option (List FixtureDef)} {p : String × FixtureDef}
    (hp : p ∈ scanSeq names items gfd) : p.1 ∈ names := by
  rcases (mem_listFlatMap _ _ _).mp hp with ⟨it, _, hin⟩
  rcases (mem_listFlatMap _ _ _).mp hin with ⟨n, hn, hinn⟩
  unfold scanSeqName at hinn
  rcases List.mem_map.mp hinn with ⟨fd, _, heq⟩
  rw [← heq]
  exact hn

theorem scanNamesLoop_total {gfd : String → String → Option (List FixtureDef)}
    {bf : String → String} {nid : String} :
    ∀ (names : List String) (avail : List (String × List Fixture)),
      (∀ n ∈ names, (gfd n nid).isSome) →
      ∃ a', scanNamesLoop gfd bf nid avail names = .ok a' := by
  intro names
  induction names with
  | nil => intro avail _; exact ⟨avail, rfl⟩
  | cons n rest ih =>
    intro avail h
    rcases Option.isSome_iff_exists.mp (h n (List.mem_cons_self _ _)) with ⟨fds, hfds⟩
    rw [scanNamesLoop, hfds]
    exact ih _ (fun m hm => h m (List.mem_cons_of_mem _ hm))

theorem scanItemsLoop_total {gfd : String → String → Option (List FixtureDef)}
    {bf : String → String} {names : List String} :
    ∀ (items : List Item) (avail : List (String × List Fixture)),
      (∀ it ∈ items, ∀ n ∈ names, (gfd n it.nodeid).isSome) →
      ∃ a', scanItemsLoop names gfd bf avail items = .ok a' := by
  intro items
  induction items with
  | nil => intro avail _; exact ⟨avail, rfl⟩
  | cons it rest ih =>
    intro avail h
    rcases scanNamesLoop_total names avail (h it (List.mem_cons_self _ _)) with ⟨a1, ha1⟩
    rw [scanItemsLoop, ha1]
    exact ih _ (fun jt hjt => h jt (List.mem_cons_of_mem _ hjt))

theorem availAt_nil (n : String) : availAt [] n = [] := rfl

theorem listIndexFrom_isSome {x : String} :
    ∀ {l : List String}, x ∈ l → ∀ n, ∃ i, listIndexFrom x l n = some i := by
  intro l
  induction l with
  | nil => intro h; exact absurd h (List.not_mem_nil x)
  | cons y ys ih =>
    intro h n
    by_cases hy : y = x
    · exact ⟨n, by rw [listIndexFrom, if_pos hy]⟩
    · have hx : x ∈ ys := by
        rcases List.mem_cons.mp h with rfl | hmem
        · exact absurd rfl hy
        · exact hmem
      rcases ih hx (n + 1) with ⟨i, hi⟩
      exact ⟨i, by rw [listIndexFrom, if_neg hy]; exact hi⟩

theorem sort_key_absent (so : List String) (fd : FixtureDef)
    (h : fd.funcPath ∉ so) : sort_key so fd = sysMaxsize := by
  unfold sort_key listIndex
  rw [listIndexFrom_eq_none h 0]

theorem sort_key_present_lt (so : List String) (fd : FixtureDef)
    (hmem : fd.funcPath ∈ so) (hlen : so.length ≤ sysMaxsize) :
    sort_key so fd < sysMaxsize := by
  rcases listIndexFrom_isSome hmem 0 with ⟨i, hi⟩
  have hb := listIndexFrom_lt hi
  unfold sort_key listIndex
  rw [hi]
  show i < sysMaxsize
  omega

theorem find_fixture_def_sorted_head {src path name : String} {reg : Registry}
    {l : List FixtureDef} (h : alistGet? name reg = some l) :
    _find_fixture_def src path name reg =
      (pySortByKey (sort_key (findFixtureSearchOrder src path name)) l).head? := by
  unfold _find_fixture_def
  rw [h]

theorem find_fixture_def_all_absent {src path name : String} {reg : Registry}
    {l : List FixtureDef} (h : alistGet? name reg = some l)
    (hall : ∀ fd ∈ l, fd.funcPath ∉ findFixtureSearchOrder src path name) :
    _find_fixture_def src path name reg = l.head? := by
  rw [find_fixture_def_sorted_head h]
  have hconst : ∀ fd ∈ l, sort_key (findFixtureSearchOrder src path name) fd = sysMaxsize :=
    fun fd hfd => sort_key_absent _ _ (hall fd hfd)
  rw [pySortByKey_const hconst]

/-- C1: `_find_fixture_def` builds its search order from the ancestor chain
of the consumer location's directory and prepends the consumer location
itself exactly when the requesting name differs from the wanted name; with
`requestingName != wantedName`, a candidate at the consumer's own location
`/r/a/conftest.py` wins over one at depth 1 (`/r/conftest.py`) and depth 2
(`/conftest.py`), each nearer one winning when present; with
`requestingName == wantedName` (a self-override) the consumer's location is
excluded and the nearest ancestor's definition is selected, never the
consumer's own, and the total function trivially cannot loop. -/

theorem c1_override_precedence :
    (∀ (source_fixture_name func_path fixture_name : String),
      findFixtureSearchOrder source_fixture_name func_path fixture_name =
        (if source_fixture_name = fixture_name then [] else [func_path]) ++
          _get_fixture_search_order (dirname func_path)) ∧
    _find_fixture_def "alpha" "/r/a/conftest.py" "beta" regC1all = some fdC1C ∧
    _find_fixture_def "alpha" "/r/a/conftest.py" "beta" regC1ab = some fdC1B ∧
    _find_fixture_def "alpha" "/r/a/conftest.py" "beta" regC1a = some fdC1A ∧
    _find_fixture_def "beta" "/r/a/conftest.py" "beta" regC1self = some fdC1B ∧
    fdC1B.funcPath ≠ "/r/a/conftest.py" := by
  refine ⟨?_, by decide, by decide, by decide, by decide, by decide⟩
  intro s p f
  by_cases h : s = f
  · simp [findFixtureSearchOrder, h]
  · simp [findFixtureSearchOrder, h]

/-- C2: the selector stable-sorts candidates by the index of their declaring
file within the search order; candidates absent from the search order all
get the same last rank `sys.maxsize` (present ones rank strictly lower),
equal-rank candidates keep their original relative order (stability), the
first element of the sorted list is returned, and when every candidate is
absent the registry's first candidate is returned. -/

theorem c2_stable_sort_selection :
    (∀ (so : List String) (fd : FixtureDef),
      fd.funcPath ∉ so → sort_key so fd = sysMaxsize) ∧
    (∀ (so : List String) (fd : FixtureDef),
      fd.funcPath ∈ so → so.length ≤ sysMaxsize → sort_key so fd < sysMaxsize) ∧
    (∀ (so : List String) (l : List FixtureDef) (n : Nat),
      (pySortByKey (sort_key so) l).filter (fun fd => decide (sort_key so fd = n)) =
        l.filter (fun fd => decide (sort_key so fd = n))) ∧
    (∀ (src path name : String) (reg : Registry) (l : List FixtureDef),
      alistGet? name reg = some l →
      _find_fixture_def src path name reg =
        (pySortByKey (sort_key (findFixtureSearchOrder src path name)) l).head?) ∧
    (∀ (src path name : String) (reg : Registry) (l : List FixtureDef),
      alistGet? name reg = some l →
      (∀ fd ∈ l, fd.funcPath ∉ findFixtureSearchOrder src path name) →
      _find_fixture_def src path name reg = l.head?) := by
  refine ⟨sort_key_absent, sort_key_present_lt, ?_, ?_, ?_⟩
  · intro so l n
    exact pySortByKey_filter_key (sort_key so) l n
  · intro src path name reg l h
    exact find_fixture_def_sorted_head h
  · intro src path name reg l h hall
    exact find_fixture_def_all_absent h hall

/-- C2 witness: concrete instances discharging each hypothesis: `/z1.py` is
absent from `["/a"]` and ranks `sys.maxsize`; present `/z1.py` ranks below
`sys.maxsize`; and with both candidates absent from the search order of
consumer `/p/q.py`, resolution returns the registry's first candidate. -/

theorem c2_witness :
    sort_key ["/a"] fdW1 = sysMaxsize ∧
    sort_key ["/z1.py"] fdW1 < sysMaxsize ∧
    _find_fixture_def "s" "/p/q.py" "n" regW =
      (pySortByKey (sort_key (findFixtureSearchOrder "s" "/p/q.py" "n")) [fdW1, fdW2]).head? ∧
    _find_fixture_def "s" "/p/q.py" "n" regW = some fdW1 := by
  refine ⟨c2_stable_sort_selection.1 ["/a"] fdW1 (by decide),
    c2_stable_sort_selection.2.1 ["/z1.py"] fdW1 (by decide) (by decide),
    c2_stable_sort_selection.2.2.2.1 "s" "/p/q.py" "n" regW [fdW1, fdW2] (by decide), ?_⟩
  have h := c2_stable_sort_selection.2.2.2.2 "s" "/p/q.py" "n" regW [fdW1, fdW2]
    (by decide) (by decide)
  rw [h]
  rfl

/-- C3 counterexample: `print_duplicates` sorts the group members by
`key[2]`, the declaring location's string form, only — not by (scope depth,
string).  With a shallow `/r/conftest.py` (depth 2) and a deeper
`/r/api/conftest.py` (depth 3) the code prints the deeper location first
because it sorts earlier as a string, while the claim's ordering would print
the shallow one first. -/

theorem c3_counterexample :
    print_duplicates "db" [fxC3A, fxC3B] none =
      ["", twSep "db", "/r/api/conftest.py", "/r/conftest.py"] ∧
    print_duplicates_specC3 "db" [fxC3A, fxC3B] none =
      ["", twSep "db", "/r/conftest.py", "/r/api/conftest.py"] ∧
    locationDepth fxC3A.bestrel < locationDepth fxC3B.bestrel ∧
    print_duplicates "db" [fxC3A, fxC3B] none ≠
      print_duplicates_specC3 "db" [fxC3A, fxC3B] none := by
  refine ⟨by decide, by decide, by decide, by decide⟩

/-- C3 amended: within a reportable group (more than one member) the printed
members are ordered ascending by the declaring location's string form alone
(ties keeping their original relative order); scope depth is carried in the
tuple but is not part of the sort key, so shallower definitions are not in
general listed first. -/

theorem c3_sorted_by_location_string :
    ∀ (argname : String) (fixtures : List Fixture), 2 ≤ fixtures.length →
      print_duplicates argname fixtures none =
        "" :: twSep argname ::
          (pySortByKey (fun fx => fx.bestrel.data) fixtures).map (fun f => f.bestrel) ∧
      ((pySortByKey (fun fx => fx.bestrel.data) fixtures).map
        (fun f => f.bestrel.data)).Pairwise (· ≤ ·) ∧
      (pySortByKey (fun fx => fx.bestrel.data) fixtures).Perm fixtures := by
  intro argname fixtures h
  refine ⟨print_duplicates_eq argname fixtures h, ?_, pySortByKey_perm _ _⟩
  rw [List.pairwise_map]
  exact pySortByKey_sorted _ _

/-- C3 witness: the amended ordering applied to the two-member group. -/
theorem c3_witness :
    print_duplicates "db" [fxC3A, fxC3B] none =
      "" :: twSep "db" ::
        (pySortByKey (fun fx => fx.bestrel.data) [fxC3A, fxC3B]).map (fun f => f.bestrel) ∧
    ((pySortByKey (fun fx => fx.bestrel.data) [fxC3A, fxC3B]).map
      (fun f => f.bestrel.data)).Pairwise (· ≤ ·) ∧
    (pySortByKey (fun fx => fx.bestrel.data) [fxC3A, fxC3B]).Perm [fxC3A, fxC3B] :=
  c3_sorted_by_location_string "db" [fxC3A, fxC3B] (by decide)

/-- C4 counterexample: with the filter active for `db`, which is present in
the registry, and a collected group of exactly one member, the code prints
nothing: the `len(fixtures) > 1` gate sits inside `print_duplicates` and
applies in filter mode too, so the report is not "always printed". -/

theorem c4_counterexample :
    _show_fixture_duplicates_main "db" regC4 itemsC4 gfdC4 id = .ok [] ∧
    alistGet? "db" regC4 = some [fdC4] ∧
    scanFixtures (scanNames "db" regC4) itemsC4 gfdC4 id =
      .ok [("db", [mkFixture id fdC4])] ∧
    (availAt [("db", [mkFixture id fdC4])] "db").length = 1 :=
  ⟨rfl, rfl, rfl, rfl⟩

/-- C4 amended: the single-name filter mode routes the requested name's
group straight to `print_duplicates`, whose size-greater-than-one gate still
applies: a group with at most one member produces no output. -/

theorem c4_filter_mode_gate :
    ∀ (fixture_name : String) (reg : Registry) (items : List Item)
      (gfd : String → String → Option (List FixtureDef)) (bestrelF : String → String)
      (avail : List (String × List Fixture)),
      fixture_name ≠ "" →
      scanFixtures (scanNames fixture_name reg) items gfd bestrelF = .ok avail →
      (availAt avail fixture_name).length ≤ 1 →
      _show_fixture_duplicates_main fixture_name reg items gfd bestrelF = .ok [] := by
  intro fn reg items gfd bf avail hfn hscan hlen
  unfold _show_fixture_duplicates_main
  rw [hscan]
  simp only [if_pos hfn]
  rw [print_duplicates_le_one hlen]

/-- C4 witness: the gate applied to the concrete one-member group. -/
theorem c4_witness :
    _show_fixture_duplicates_main "db" regC4 itemsC4 gfdC4 id = .ok [] :=
  c4_filter_mode_gate "db" regC4 itemsC4 gfdC4 id [("db", [mkFixture id fdC4])]
    (by decide) rfl (by decide)

/-- C5: on the spec's end-to-end scenario (registry `db`@/root/conftest with
no dependencies and `client`@/root/api/conftest depending on `db`, consumer
directly requesting `["client"]`) the per-consumer graph export does not
produce the claimed 3-node, 2-edge graph: the direct request names are
stored as raw strings (second conjunct — `db` is resolved through
`_find_fixture_def` for the ordinary edge, but `client` is never resolved),
and the edge loop's tuple unpacking of the 6-character string `"client"`
raises `ValueError`, aborting the whole export. -/

theorem c5_direct_request_valueerror :
    pyGraphOfData (fixtureGraphData regC5 ["client"] "/w/") =
      .error "ValueError: not a pair: client" ∧
    fixtureGraphData regC5 ["client"] "/w/" =
      [("", [("func_args", ([DepItem.str "client"], "red"))]),
       ("/root/conftest", [("db", ([], "green"))]),
       ("/root/api/conftest", [("client", ([DepItem.pair "/root/conftest" "db"], "green"))])] ∧
    save_fixture_graph regC5 ["client"] "/w/" "artifacts" "png" "fixture-graph-t" (.ok ()) =
      .error "ValueError: not a pair: client" :=
  ⟨rfl, rfl, rfl⟩

/-- C6: the builder does emit a dangling edge.  For a consumer directly
requesting the 2-character name `db`, the synthetic root's entry stores the
raw string `"db"`, which the edge loop unpacks into the characters `d` and
`b`, emitting an edge to the id `d/b` — an id no node of the graph has. -/

theorem c6_dangling_edge :
    pyGraphOfData (fixtureGraphData regC6 ["db"] "/w/") = .ok gC6 ∧
    PyEdge.mk "/func_args" "d/b" ∈ gC6.edges ∧
    "d/b" ∉ gC6.nodes.map (fun nd => nd.id) := by
  refine ⟨rfl, by decide, by decide⟩

/-- C7: the duplicate collection appends a tuple for a name only when no
previously collected tuple for that name has the same declaring-location
string: each name's collected group is exactly the first-wins dedupe of that
name's slice of the scan sequence, so its location strings are pairwise
distinct (identical locations never give two entries) and every scanned
definition's location string is represented (distinct locations always give
distinct entries). -/

theorem c7_first_wins_dedupe :
    ∀ (names : List String) (items : List Item)
      (gfd : String → String → Option (List FixtureDef)) (bestrelF : String → String)
      (avail : List (String × List Fixture)) (name : String),
      scanFixtures names items gfd bestrelF = .ok avail →
      availAt avail name =
        dedupeFirstByLocation []
          (((scanSeq names items gfd).filter (fun p => decide (p.1 = name))).map
            (fun p => mkFixture bestrelF p.2)) ∧
      ((availAt avail name).map (fun f => f.bestrel)).Nodup ∧
      (∀ p ∈ scanSeq names items gfd, p.1 = name →
        bestrelF p.2.locStr ∈ (availAt avail name).map (fun f => f.bestrel)) := by
  intro names items gfd bf avail name h
  have hfold := scanFixtures_ok h
  have heq : availAt avail name =
      dedupeFirstByLocation []
        (((scanSeq names items gfd).filter (fun p => decide (p.1 = name))).map
          (fun p => mkFixture bf p.2)) := by
    rw [hfold, availAt_availFold]
    rfl
  refine ⟨heq, ?_, ?_⟩
  · rw [heq]
    exact (dedupeFirstByLocation_nodup _ []).1
  · intro p hp hfst
    rw [heq]
    have hmem : mkFixture bf p.2 ∈
        ((scanSeq names items gfd).filter (fun p => decide (p.1 = name))).map
          (fun p => mkFixture bf p.2) :=
      List.mem_map.mpr ⟨p, List.mem_filter.mpr ⟨hp, by simp [hfst]⟩, rfl⟩
    rcases dedupeFirstByLocation_covers _ [] _ hmem with hin | hin
    · simp at hin
    · exact hin

/-- C7 witness: two definitions with the identical location string
`/r/conftest.py:3` collapse to the single first-scanned entry. -/

theorem c7_witness :
    availAt [("db", [mkFixture id fdC7a])] "db" =
      dedupeFirstByLocation []
        (((scanSeq ["db"] itemsC7 gfdC7).filter (fun p => decide (p.1 = "db"))).map
          (fun p => mkFixture id p.2)) ∧
    ((availAt [("db", [mkFixture id fdC7a])] "db").map (fun f => f.bestrel)).Nodup ∧
    (∀ p ∈ scanSeq ["db"] itemsC7 gfdC7, p.1 = "db" →
      id p.2.locStr ∈ (availAt [("db", [mkFixture id fdC7a])] "db").map (fun f => f.bestrel)) :=
  c7_first_wins_dedupe ["db"] itemsC7 gfdC7 id [("db", [mkFixture id fdC7a])] "db" rfl

/-- C8: the ancestor-chain computation recurses on the parent directory and
stops exactly at the `dirname` fixed point (the filesystem root), returning
`[]` there; it terminates — its output length is bounded by the input path
length — and it yields the iterated parent directories' `conftest.py`
files, nearest first (the chain steps are exactly `dirname` applications). -/

theorem c8_ancestor_chain_terminates :
    (∀ p, dirname p = p → _get_fixture_search_order p = []) ∧
    (∀ p, dirname p ≠ p →
      _get_fixture_search_order p =
        pathJoin (dirname p) "conftest.py" :: _get_fixture_search_order (dirname p)) ∧
    (∀ p, (_get_fixture_search_order p).length ≤ p.length) ∧
    (∀ p, _get_fixture_search_order p =
      (dirnameChain p).map (fun d => pathJoin d "conftest.py")) ∧
    (∀ p, List.Chain' (fun a b => dirname a = b) (p :: dirnameChain p)) := by
  refine ⟨?_, ?_, ?_, ?_, ?_⟩
  · intro p h
    exact searchOrderFuel_base h p.length
  · intro p h
    exact searchOrder_unfold h
  · intro p
    exact searchOrderFuel_length_le p.length p
  · intro p
    exact searchOrderFuel_eq_chainMap p.length p
  · intro p
    exact chain_dirnameChainFuel p.length p

/-- C8 witness: the base case at the root `/` and one recursion step. -/
theorem c8_witness :
    _get_fixture_search_order "/" = [] ∧
    _get_fixture_search_order "/a/b" =
      pathJoin (dirname "/a/b") "conftest.py" :: _get_fixture_search_order (dirname "/a/b") :=
  ⟨c8_ancestor_chain_terminates.1 "/" (by decide),
   c8_ancestor_chain_terminates.2.1 "/a/b" (by decide)⟩

/-- C9: the textual `.dot` write event precedes the render attempt in the
event trace whatever the renderer outcome; when the renderer fails, no image
is produced, the manual-render hint lines are emitted instead, and the
export as a whole still returns normally — its success is independent of
the renderer outcome. -/

theorem c9_export_best_effort :
    ∀ (filename output_type e : String),
      exportTail filename output_type (.ok ()) =
        [ExportEvent.termLine "", ExportEvent.termSepLine "fixture-graph",
         ExportEvent.termLine ("created " ++ filename ++ ".dot."),
         ExportEvent.wroteDot (filename ++ ".dot"),
         ExportEvent.renderAttempt (filename ++ "." ++ output_type),
         ExportEvent.wroteImage (filename ++ "." ++ output_type),
         ExportEvent.termLine ("created " ++ filename ++ "." ++ output_type ++ ".")] ∧
      exportTail filename output_type (.error e) =
        [ExportEvent.termLine "", ExportEvent.termSepLine "fixture-graph",
         ExportEvent.termLine ("created " ++ filename ++ ".dot."),
         ExportEvent.wroteDot (filename ++ ".dot"),
         ExportEvent.renderAttempt (filename ++ "." ++ output_type),
         ExportEvent.termLine "graphvis was not found in PATH",
         ExportEvent.termLine ("You can convert it to a PNG using: dot -Tpng " ++
           filename ++ ".dot -o " ++ filename ++ ".png")] ∧
      ExportEvent.wroteImage (filename ++ "." ++ output_type) ∉
        exportTail filename output_type (.error e) ∧
      (∀ (reg : Registry) (func_args : List String) (cwd log_dir fn : String)
        (r r' : Except String Unit),
        (save_fixture_graph reg func_args cwd log_dir output_type fn r).isOk =
          (save_fixture_graph reg func_args cwd log_dir output_type fn r').isOk) := by
  intro filename output_type e
  refine ⟨rfl, rfl, ?_, ?_⟩
  · simp [exportTail]
  · intro reg fa cwd log_dir fn r r'
    unfold save_fixture_graph
    cases hpg : pyGraphOfData (fixtureGraphData reg fa cwd) with
    | error e2 => rfl
    | ok g => rfl

/-- C10: when the single-name filter names a resource absent from the
registry, the scanned-name selection silently falls back to every registered
name, and the run completes (no assertion trips, given the collector answers
for registered names) printing no lines at all: the requested name's group
is empty, so the filter branch prints nothing. -/

theorem c10_missing_filter_fallback :
    ∀ (fixture_name : String) (reg : Registry) (items : List Item)
      (gfd : String → String → Option (List FixtureDef)) (bestrelF : String → String),
      fixture_name ≠ "" →
      alistGet? fixture_name reg = none →
      (∀ it ∈ items, ∀ n ∈ reg.map (fun kv => kv.1), (gfd n it.nodeid).isSome) →
      scanNames fixture_name reg = reg.map (fun kv => kv.1) ∧
      _show_fixture_duplicates_main fixture_name reg items gfd bestrelF = .ok [] := by
  intro fn reg items gfd bf hfn hnone htot
  have hkeys : scanNames fn reg = reg.map (fun kv => kv.1) := by
    simp [scanNames, hnone]
  refine ⟨hkeys, ?_⟩
  have htot' : ∀ it ∈ items, ∀ n ∈ scanNames fn reg, (gfd n it.nodeid).isSome := by
    rw [hkeys]
    exact htot
  rcases scanItemsLoop_total items [] htot' with ⟨avail, havail⟩
  have hscan : scanFixtures (scanNames fn reg) items gfd bf = .ok avail := havail
  have hfold := scanFixtures_ok hscan
  have hfilter : (scanSeq (scanNames fn reg) items gfd).filter
      (fun p => decide (p.1 = fn)) = [] := by
    apply filter_eq_nil_of
    intro p hp
    simp only [decide_eq_false_iff_not]
    intro hfst
    have hm := scanSeq_fst_mem hp
    rw [hfst, hkeys] at hm
    exact alistGet?_eq_none_not_key hnone hm
  have hempty : availAt avail fn = [] := by
    rw [hfold, availAt_availFold, availAt_nil, hfilter]
    rfl
  unfold _show_fixture_duplicates_main
  rw [hscan]
  simp only [if_pos hfn]
  rw [hempty, print_duplicates_le_one (by simp)]

/-- C10 witness: filtering on the unregistered name `zz` scans the whole
registry and prints nothing. -/

theorem c10_witness :
    scanNames "zz" regC4 = regC4.map (fun kv => kv.1) ∧
    _show_fixture_duplicates_main "zz" regC4 itemsC4 gfdC4 id = .ok [] :=
  c10_missing_filter_fallback "zz" regC4 itemsC4 gfdC4 id (by decide) (by decide) (by decide)
